import Mathlib

/-!
Verification development for the preview resolution and link-rewriting engine
of `src/preview/rstEngine.ts` (class `RSTEngine`).

The engine is shallowly embedded:
* JavaScript strings are Lean `String`s; the JS string primitives used by the
  source (`lastIndexOf`, `substring`, `indexOf`, `toLowerCase`, `startsWith`)
  are reproduced with their JS clamping semantics.
* Node's `path.posix` functions (`join`, `normalize`, `dirname`, `basename`,
  `relative`, and the `resolve` step inside `relative`) are reproduced; the
  host is modelled as posix (`/` separator), matching the environment the
  extension targets in these code paths.  `path.relative` resolves relative
  inputs against the process working directory, so the embedding threads an
  explicit `cwd`.
* External collaborators (the docutils renderer invoked through
  `python.exec`, the esbonio backend state, `fs.existsSync`, `fs.readFile`,
  `webview.asWebviewUri ∘ vscode.Uri.file`) are fields of an environment
  record; a rejected promise / thrown error is `Except.error`.
* Filesystem touches are recorded in an event trace (`FsEvent`) so that
  "performs no filesystem access" claims can be stated.
* Logging (`logger.log`) has no observable effect on the returned HTML and is
  dropped; `status.reset()` only affects the external status-bar collaborator
  and is noted where it occurs.
-/

/-! ### JS string primitives -/

/-- First index of a character in a character list, `none` when absent. -/
def charIdx (c : Char) : List Char → Option Nat
  | [] => none
  | x :: xs => if x = c then some 0 else (charIdx c xs).map (· + 1)

/-- JS `String.prototype.lastIndexOf` for a single character: the index of the
last occurrence, or `-1`. -/
def jsLastIndexOf (s : String) (c : Char) : Int :=
  match charIdx c s.data.reverse with
  | some i => (s.data.length : Int) - 1 - i
  | none => -1

/-- JS `String.prototype.indexOf` for a single character: the index of the
first occurrence, or `-1`. -/
def jsIndexOf (s : String) (c : Char) : Int :=
  match charIdx c s.data with
  | some i => (i : Int)
  | none => -1

/-- JS `String.prototype.substring`: both arguments are clamped to
`[0, length]` and swapped when out of order. -/
def jsSubstring (s : String) (a b : Int) : String :=
  let n : Int := (s.data.length : Int)
  let ia := min (max a 0) n
  let ib := min (max b 0) n
  let lo := min ia ib
  let hi := max ia ib
  String.mk ((s.data.take hi.toNat).drop lo.toNat)

/-! ### Node `path.posix` model -/

/-- Split a character list at a separator (like JS `split`): `splitSeg '/'`
of `"a//b"` is `[[a], [], [b]]`. -/
def splitSeg (sep : Char) : List Char → List (List Char)
  | [] => [[]]
  | c :: cs =>
    match splitSeg sep cs with
    | [] => [[]]
    | h :: t => if c = sep then [] :: h :: t else (c :: h) :: t

/-- Join segments with a separator character (inverse of `splitSeg` on
separator-free segments). -/
def joinSegs (sep : Char) : List (List Char) → List Char
  | [] => []
  | [s] => s
  | s :: t :: rest => s ++ sep :: joinSegs sep (t :: rest)

/-- One step of Node's `normalizeString`: drop `.`, pop a segment on `..`
(or keep `..` when ascending above the root is allowed), push anything
else.  The accumulator is kept reversed. -/
def normStep (allowAboveRoot : Bool) (acc : List (List Char)) (seg : List Char) :
    List (List Char) :=
  if seg = ['.'] then acc
  else if seg = ['.', '.'] then
    match acc with
    | [] => if allowAboveRoot then [['.', '.']] else []
    | h :: t => if h = ['.', '.'] then (if allowAboveRoot then seg :: acc else acc) else t
  else seg :: acc

/-- Node's `normalizeString` on already-split non-empty segments. -/
def normSegs (allowAboveRoot : Bool) (segs : List (List Char)) : List (List Char) :=
  (segs.foldl (normStep allowAboveRoot) []).reverse

/-- `path.posix.normalize`. -/
def pnormalize (p : String) : String :=
  if p.data = [] then "."
  else if p.data.head? = some '/' then
    let body := joinSegs '/' (normSegs false ((splitSeg '/' p.data).filter (fun l => l ≠ [])))
    if body = [] then "/"
    else String.mk ('/' :: body ++ (if p.data.getLast? = some '/' then ['/'] else []))
  else
    let body := joinSegs '/' (normSegs true ((splitSeg '/' p.data).filter (fun l => l ≠ [])))
    if body = [] then (if p.data.getLast? = some '/' then "./" else ".")
    else String.mk (body ++ (if p.data.getLast? = some '/' then ['/'] else []))

/-- `path.posix.join`: concatenate the non-empty parts with `/` and
normalize; `"."` when every part is empty. -/
def pjoin (parts : List String) : String :=
  match parts.filter (fun s => s ≠ "") with
  | [] => "."
  | ps => pnormalize (String.mk (joinSegs '/' (ps.map String.data)))

/-- `path.posix.dirname`. -/
def pdirname (p : String) : String :=
  if p.data = [] then "."
  else
    let hasRoot := p.data.head? = some '/'
    let r1 := p.data.reverse.dropWhile (fun c => c = '/')
    let r2 := r1.dropWhile (fun c => c ≠ '/')
    match r2 with
    | [] => if hasRoot then "/" else "."
    | _ :: rest =>
      if rest = [] then (if hasRoot then "/" else ".")
      else if rest.length = 1 ∧ hasRoot then "//"
      else String.mk rest.reverse

/-- `path.posix.basename` (one-argument form): the final non-empty segment. -/
def pbasename (p : String) : String :=
  match ((splitSeg '/' p.data).filter (fun l => l ≠ [])).getLast? with
  | some s => String.mk s
  | none => ""

/-- The segment list of `path.posix.resolve(p)` relative to root: an absolute
`p` is normalized on its own, a relative `p` is first appended to `cwd`. -/
def presolveSegs (cwd p : String) : List (List Char) :=
  let pd := if p.data.head? = some '/' then p.data else cwd.data ++ '/' :: p.data
  normSegs false ((splitSeg '/' pd).filter (fun l => l ≠ []))

/-- Length of the common prefix of two segment lists. -/
def commonLen : List (List Char) → List (List Char) → Nat
  | a :: as, b :: bs => if a = b then commonLen as bs + 1 else 0
  | _, _ => 0

/-- `path.posix.relative(fromP, toP)`: resolve both (against `cwd`), drop the
common prefix, ascend with `..` for what remains of `fromP` and descend into
what remains of `toP`. -/
def prelative (cwd fromP toP : String) : String :=
  let f := presolveSegs cwd fromP
  let t := presolveSegs cwd toP
  if f = t then ""
  else
    let c := commonLen f t
    String.mk (joinSegs '/' (List.replicate (f.length - c) ['.', '.'] ++ t.drop c))

/-! ### Substring containment helpers -/

/-- `seqStarts sub l`: `l` begins with `sub`. -/
def seqStarts : List Char → List Char → Bool
  | [], _ => true
  | _ :: _, [] => false
  | a :: as, b :: bs => decide (a = b) && seqStarts as bs

/-- `seqContains hay sub`: `sub` occurs contiguously inside `hay`. -/
def seqContains : List Char → List Char → Bool
  | [], sub => seqStarts sub []
  | c :: t, sub => seqStarts sub (c :: t) || seqContains t sub

/-- String-level contiguous-substring test. -/
def strContains (hay sub : String) : Bool :=
  seqContains hay.data sub.data

/-- Number of (possibly overlapping) occurrences of `sub` in `hay`. -/
def countSeq (sub : List Char) : List Char → Nat
  | [] => 0
  | c :: t => (if seqStarts sub (c :: t) then 1 else 0) + countSeq sub t

/-- JS `String.prototype.startsWith`. -/
def jsStartsWith (s pre : String) : Bool :=
  seqStarts pre.data s.data

/-- JS `String.prototype.toLowerCase`, character-wise (the characters the
source compares after lowering are plain ASCII). -/
def jsToLower (s : String) : String :=
  String.mk (s.data.map Char.toLower)

/-! ### Link Rewriter (`RSTEngine.fixLinks`)

The source applies the regex `((?:src|href)=['"])(.*?)(['"])` with flags
`gmi` and a replacement callback.  The scanner below reproduces the regex
engine's behaviour on this pattern: at each position it tries to match the
attribute name case-insensitively, `=`, an opening quote (either kind),
then the lazy `(.*?)` which stops at the first quote character of either
kind (`.` matches everything except line terminators); on success the
callback's output is emitted and scanning resumes after the match, otherwise
the character is copied and scanning advances by one. -/

/-- The single-quote character (code 39). -/
def squote : Char := Char.ofNat 39

/-- A character matched by the regex class holding the two quote kinds. -/
def isQuote (c : Char) : Bool := c = squote || c = '"'

/-- A character matched by JS `.` without the `s` flag: anything except a
line terminator (`\n`, `\r`, U+2028, U+2029). -/
def isDotChar (c : Char) : Bool :=
  !(c = '\n' || c = '\r' || c = Char.ofNat 0x2028 || c = Char.ofNat 0x2029)

/-- Match the lazy `(.*?)(['"])` tail: the value is everything up to the
first quote character, and must consist of `.`-matchable characters. -/
def scanValue : List Char → Option (List Char × Char × List Char)
  | [] => none
  | c :: cs =>
    if isQuote c then some ([], c, cs)
    else if isDotChar c then
      match scanValue cs with
      | some (v, q, rest) => some (c :: v, q, rest)
      | none => none
    else none

/-- Match `(?:src|href)` case-insensitively at the head of the list,
returning the matched characters and the remainder. -/
def matchAttrName : List Char → Option (List Char × List Char)
  | a :: b :: c :: rest =>
    if a.toLower = 's' ∧ b.toLower = 'r' ∧ c.toLower = 'c' then some ([a, b, c], rest)
    else
      match rest with
      | d :: rest2 =>
        if a.toLower = 'h' ∧ b.toLower = 'r' ∧ c.toLower = 'e' ∧ d.toLower = 'f' then
          some ([a, b, c, d], rest2)
        else none
      | [] => none
  | _ => none

/-- Try the whole pattern at the head of the list.  On success, returns
(group 1, group 2, group 3, remainder after the match). -/
def tryMatch (cs : List Char) : Option (List Char × List Char × Char × List Char) :=
  match matchAttrName cs with
  | none => none
  | some (name, rest1) =>
    match rest1 with
    | '=' :: q1 :: rest2 =>
      if isQuote q1 then
        match scanValue rest2 with
        | some (v, q2, rest3) => some (name ++ ['=', q1], v, q2, rest3)
        | none => none
      else none
    | _ => none

/-- The replacement callback of `fixLinks` (lines 112-128).  `f` stands for
the external `webView.asWebviewUri(vscode.Uri.file(·))` collaborator
(including URI stringification). -/
def fixLinksReplace (f : String → String) (documentPath subString p1 p2 p3 : String) :
    String :=
  let lower := jsToLower p2
  if jsStartsWith p2 "#" || jsStartsWith lower "http://" || jsStartsWith lower "https://" then
    subString
  else
    let idx := jsIndexOf p2 '?'
    let p2c := if idx > -1 then jsSubstring p2 0 idx else p2
    let newPath := pjoin [pdirname documentPath, p2c]
    p1 ++ f newPath ++ p3

/-- Global-scan loop of `String.prototype.replace` for this pattern.  The
fuel is the remaining length; every step consumes at least one character, so
starting with `cs.length` fuel the fuel never runs out. -/
def fixLinksAux (f : String → String) (documentPath : String) :
    Nat → List Char → List Char
  | 0, cs => cs
  | _ + 1, [] => []
  | fuel + 1, c :: cs =>
    match tryMatch (c :: cs) with
    | some (p1, p2, p3, rest) =>
      (fixLinksReplace f documentPath (String.mk (p1 ++ p2 ++ [p3])) (String.mk p1)
          (String.mk p2) (String.mk [p3])).data
        ++ fixLinksAux f documentPath fuel rest
    | none => c :: fixLinksAux f documentPath fuel cs

/-- `RSTEngine.fixLinks` (lines 109-130). -/
def fixLinks (f : String → String) (documentPath document : String) : String :=
  String.mk (fixLinksAux f documentPath document.data.length document.data)

/-- `true` when the document has at least one occurrence of the `src`/`href`
attribute pattern (i.e. the regex matches somewhere). -/
def hasAttrOccurrence : List Char → Bool
  | [] => false
  | c :: cs => (tryMatch (c :: cs)).isSome || hasAttrOccurrence cs

/-! ### Status pages and the engine -/

/-- A JS `Error`: name, message, stack. -/
structure JsErr where
  name : String
  message : String
  stack : String
deriving DecidableEq, Repr

/-- A filesystem touch performed during one request. -/
inductive FsEvent where
  | existsCheck (path : String)
  | read (path : String)
deriving DecidableEq, Repr

/-- `RSTEngine.errorSnippet` (lines 18-20). -/
def errorSnippet (error : String) : String :=
  "<html><body>" ++ error ++ "</body></html>"

/-- `Error.prototype.toString`. -/
def errorToString (e : JsErr) : String :=
  if e.name = "" then e.message
  else if e.message = "" then e.name
  else e.name ++ ": " ++ e.message

/-- `RSTEngine.showHelp` (lines 132-151).  The TS source is one string
literal with backslash line continuations; each continuation contributes the
following line's leading spaces and no newline. -/
def showHelp (description error : String) : String :=
  "<body>    <section>      <article>        <header>          <h2>Cannot show preview page.</h2>          <h4>Description:</h4>          "
    ++ description
    ++ "          <h4>Detailed error message</h4>          <pre>"
    ++ error
    ++ "</pre>          <h4>More Information</h4>          <p>Diagnostics information has been written to OUTPUT | Esbonio Language Server panel.</p>          <p>The troubleshooting guide can be found at</p>          <pre>https://docs.restructuredtext.net/articles/troubleshooting.html</pre>        </header>      </article>    </section>  </body>"

/-- `RSTEngine.showWait` (lines 153-170). -/
def showWait : String :=
  "<body>    <section>      <article>        <header>          <h2>Esbonio is busy.</h2>          <h4>Description:</h4>          <p>Esbonio is still working in the background. This panel will automatically refresh when the preview page is ready.</p>          <h4>More Information</h4>          <p>Diagnostics information has been written to OUTPUT | Esbonio Language Server panel.</p>          <p>The troubleshooting guide can be found at</p>          <pre>https://docs.restructuredtext.net/articles/troubleshooting.html</pre>        </header>      </article>    </section>  </body>"

/-- The `description` built in `previewPage`'s read-error branch
(lines 91-97); again a single literal with line continuations. -/
def readFailDescription (htmlPath : String) : String :=
  "<p>Cannot read preview page \"" ++ htmlPath
    ++ "\".</p>                      <p>Possible causes are,</p>                      <ul>                      <li>A wrong \"conf.py\" file is selected.</li>                      <li>Wrong value is set on \"esbonio.sphinx.buildDir\".</li>                      </ul>"

/-- External collaborators and ambient state consumed by one `compile`
request. -/
structure SphinxEnv where
  /-- `Configuration.getPreviewName()`. -/
  previewName : String
  /-- Result of the docutils renderer invocation `python.exec(...)` for this
  request (`Except.error` models a rejected promise). -/
  pythonExec : Except JsErr String
  /-- `esbonio.error`. -/
  esbonioError : Bool
  /-- `esbonio.ready`. -/
  esbonioReady : Bool
  /-- `esbonio.sphinxConfig.buildDir`. -/
  buildDir : String
  /-- `fs.existsSync`. -/
  fsExists : String → Bool
  /-- `fs.readFile` outcome per path (`Except.error err` models the callback
  receiving `err ≠ null`). -/
  readRes : String → Except JsErr String
  /-- `webview.asWebviewUri ∘ vscode.Uri.file`, stringified. -/
  webviewUri : String → String
  /-- `process.cwd()`, consumed by `path.relative`. -/
  cwd : String

/-- The output-path computation of `compile` (lines 63-70). -/
def resolveHtmlPath (cwd confPyDirectory buildDir fsPath : String) : String :=
  let whole := fsPath
  let ext := jsLastIndexOf whole '.'
  let whole2 := jsSubstring whole 0 ext ++ ".html"
  let source := pdirname whole2
  let sourceRelative := prelative cwd confPyDirectory source
  let outputRelative := prelative cwd confPyDirectory buildDir
  pjoin [confPyDirectory, outputRelative, sourceRelative, pbasename whole2]

/-- `RSTEngine.previewPage` (lines 75-107).  The promise always resolves:
both branches of the `fs.readFile` callback call `resolve`.  The `input`
parameter is only logged by the source and has no effect on the result.
Returns the resolved HTML together with the filesystem events of this
call. -/
def previewPage (env : SphinxEnv) (htmlPath input : String) (fixLinksFlag : Bool) :
    String × List FsEvent :=
  match env.readRes htmlPath with
  | Except.ok data =>
    (if fixLinksFlag then fixLinks env.webviewUri htmlPath data else data,
      [FsEvent.read htmlPath])
  | Except.error err =>
    (showHelp (readFailDescription htmlPath)
        (String.intercalate "\n" [err.name, err.message, err.stack]),
      [FsEvent.read htmlPath])

/-- `RSTEngine.compile` (lines 22-73).  `Except.error` models the returned
promise rejecting.  The second component records the filesystem accesses
performed during the request (the docutils branch performs none; spawning
the renderer is an external process invocation, not a filesystem read). -/
def compile (env : SphinxEnv) (fileName fsPath confPyDirectory : String)
    (fixLinksFlag : Bool) : Except JsErr String × List FsEvent :=
  if confPyDirectory = "" ∨ env.previewName = "docutils" then
    (env.pythonExec, [])
  else
    let input := confPyDirectory
    let confFile := pjoin [input, "conf.py"]
    let confExists := env.fsExists confFile
    -- When conf.py is missing, the source awaits status.reset() (an external
    -- status-bar collaborator), logs, and reassigns
    -- input := confPyDirectory and confFile := path.join(input, 'conf.py');
    -- both reassignments reproduce the values already computed above.
    let input2 := if confExists then input else confPyDirectory
    let checkEvents := [FsEvent.existsCheck confFile]
    if env.esbonioError then
      (Except.ok (showHelp "<p>Esbonio detected build errors.</p>" "Not Available"),
        checkEvents)
    else if env.esbonioReady = false then
      (Except.ok showWait, checkEvents)
    else
      let htmlPath := resolveHtmlPath env.cwd confPyDirectory env.buildDir fsPath
      let page := previewPage env htmlPath input2 fixLinksFlag
      (Except.ok page.1, checkEvents ++ page.2)

/-- The state `preview` (lines 172-183) reads from its collaborators. -/
structure PreviewEnv where
  env : SphinxEnv
  /-- `doc.fileName`. -/
  fileName : String
  /-- `doc.uri.fsPath`. -/
  fsPath : String
  /-- `this.status == null`. -/
  statusIsNull : Bool
  /-- `this.status.config == null` before any refresh. -/
  statusConfigIsNull : Bool
  /-- Outcome of `await this.status.refreshConfig(doc.uri)`. -/
  refreshResult : Except JsErr Unit
  /-- Whether `this.status.config` is still null after the refresh (reading
  `.confPyDirectory` off it then throws a TypeError). -/
  configNullAfterRefresh : Bool
  /-- `this.status.config.confPyDirectory` when the config is present. -/
  confPyDirectory : String

/-- The TypeError thrown by reading `.confPyDirectory` off a null config
(message text is engine-dependent; modelled as a fixed string). -/
def typeErrorNullConfig : JsErr :=
  { name := "TypeError"
    message := "Cannot read properties of null"
    stack := "" }

/-- `RSTEngine.preview` (lines 172-183).  The `try` block catches errors
thrown synchronously and rejections of awaited promises (the
`await this.status.refreshConfig(...)` on line 177 and the null-config
TypeError on line 179), but both `return this.compile(...)` statements
(lines 175 and 179) return the promise without awaiting it, so a rejection
of `compile` bypasses the `catch` and rejects `preview` itself. -/
def preview (p : PreviewEnv) : Except JsErr String :=
  if p.statusIsNull then
    (compile p.env p.fileName p.fsPath "" true).1
  else
    match (if p.statusConfigIsNull then p.refreshResult else Except.ok ()) with
    | Except.error e => Except.ok (errorSnippet (errorToString e))
    | Except.ok _ =>
      if p.statusConfigIsNull ∧ p.configNullAfterRefresh then
        Except.ok (errorSnippet (errorToString typeErrorNullConfig))
      else
        (compile p.env p.fileName p.fsPath p.confPyDirectory true).1

/-! ### Helper lemmas -/

theorem charIdx_append_self_of_not_mem {c : Char} {l : List Char} (m : List Char)
    (h : c ∉ l) : charIdx c (l ++ c :: m) = some l.length := by
  induction l with
  | nil => simp [charIdx]
  | cons x l ih =>
    have hx : ¬ x = c := fun hc => h (by simp [hc])
    have hih := ih (fun hm => h (List.mem_cons_of_mem _ hm))
    simp [charIdx, hx, hih]

theorem jsSubstring_take (s : String) (k : Nat) (hk : k ≤ s.data.length) :
    jsSubstring s 0 (k : Int) = String.mk (s.data.take k) := by
  have h0 : max (0 : Int) 0 = 0 := by omega
  have h1 : min (0 : Int) (s.data.length : Int) = 0 := by omega
  have h2 : max (k : Int) 0 = (k : Int) := by omega
  have h3 : min (k : Int) (s.data.length : Int) = (k : Int) := by omega
  have h4 : min (0 : Int) (k : Int) = 0 := by omega
  have h5 : max (0 : Int) (k : Int) = (k : Int) := by omega
  have hk2 : k ≤ s.length := hk
  have h6 : min (k : Int) (s.length : Int) = (k : Int) := by omega
  simp [jsSubstring, h0, h1, h2, h3, h4, h5, h6]

/-- A per-step scanner lemma: the whole scan is the identity when the regex
matches nowhere. -/
theorem fixLinksAux_no_match (f : String → String) (dp : String) :
    ∀ (n : Nat) (cs : List Char), hasAttrOccurrence cs = false → fixLinksAux f dp n cs = cs
  | 0, cs, _ => rfl
  | _ + 1, [], _ => rfl
  | n + 1, c :: cs, h => by
    have h2 := h
    unfold hasAttrOccurrence at h2
    rw [Bool.or_eq_false_iff] at h2
    have hnone : tryMatch (c :: cs) = none := by
      cases htm : tryMatch (c :: cs) with
      | none => rfl
      | some v => rw [htm] at h2; simp at h2
    unfold fixLinksAux
    rw [hnone, fixLinksAux_no_match f dp n cs h2.2]

/-- A constant probe collaborator used in the concrete rewrite examples. -/
def rwProbe : String → String := fun _ => "SANDBOX-URI"

/-! ### Claim theorems -/

/-- C9: for every input document in which the `src`/`href` attribute pattern
matches nowhere, `fixLinks` returns the document byte-identical, for every
URI-mapping collaborator and document path. -/
theorem C9_no_attr_identity (f : String → String) (docPath doc : String)
    (h : hasAttrOccurrence doc.data = false) : fixLinks f docPath doc = doc := by
  unfold fixLinks
  rw [fixLinksAux_no_match f docPath _ _ h]

/-- Witness for C9 at a concrete attribute-free document. -/
theorem C9_witness : fixLinks (fun s => s) "/x/y.html" "<p>hello</p>" = "<p>hello</p>" :=
  C9_no_attr_identity (fun s => s) "/x/y.html" "<p>hello</p>" (by decide)

/-- C7: the replacement callback returns the matched occurrence unchanged
whenever the attribute value starts with `#`, or case-insensitively with
`http://` or `https://`; consequently the spec's three example documents pass
through `fixLinks` unchanged (with an adversarial URI mapper that would be
visible in the output if it were ever applied). -/
theorem C7_skip_rules :
    (∀ (f : String → String) (docPath subStr p1 v p3 : String),
        (jsStartsWith v "#" = true ∨ jsStartsWith (jsToLower v) "http://" = true ∨
          jsStartsWith (jsToLower v) "https://" = true) →
        fixLinksReplace f docPath subStr p1 v p3 = subStr)
    ∧ fixLinks rwProbe "/x/y.html" "<a href=\"#section\">s</a>" = "<a href=\"#section\">s</a>"
    ∧ fixLinks rwProbe "/x/y.html" "<a href=\"https://example.com\">e</a>"
        = "<a href=\"https://example.com\">e</a>"
    ∧ fixLinks rwProbe "/x/y.html" "<a href=\"http://example.com/p?q=1\">e</a>"
        = "<a href=\"http://example.com/p?q=1\">e</a>" := by
  refine ⟨?_, by decide, by decide, by decide⟩
  intro f docPath subStr p1 v p3 h
  unfold fixLinksReplace
  rcases h with h | h | h <;> simp [h]

/-- Witness for C7 at a concrete anchor-valued occurrence. -/
theorem C7_witness :
    fixLinksReplace rwProbe "/x/y.html" "href=\"#s\"" "href=\"" "#s" "\"" = "href=\"#s\"" :=
  C7_skip_rules.1 rwProbe "/x/y.html" "href=\"#s\"" "href=\"" "#s" "\"" (Or.inl (by decide))

theorem strData_append (a b : String) : (a ++ b).data = a.data ++ b.data := rfl

/-- C8: the replacement callback strips everything from the first `?` on
before resolving the value against the document directory, and the rewritten
attribute does not restore the query; concretely,
`<script src="b.js?v=2">` resolves using `b.js`. -/
theorem C8_query_stripping :
    (∀ (f : String → String) (docPath subStr p1 v q p3 : String),
        jsStartsWith (v ++ "?" ++ q) "#" = false →
        jsStartsWith (jsToLower (v ++ "?" ++ q)) "http://" = false →
        jsStartsWith (jsToLower (v ++ "?" ++ q)) "https://" = false →
        '?' ∉ v.data →
        fixLinksReplace f docPath subStr p1 (v ++ "?" ++ q) p3
          = p1 ++ f (pjoin [pdirname docPath, v]) ++ p3)
    ∧ fixLinks rwProbe "/x/y.html" "<script src=\"b.js?v=2\"></script>"
        = "<script src=\"" ++ rwProbe "/x/b.js" ++ "\"></script>" := by
  constructor
  · intro f docPath subStr p1 v q p3 h1 h2 h3 hq
    have hdata : (v ++ "?" ++ q).data = v.data ++ '?' :: q.data := by
      rw [strData_append, strData_append]
      simp
    have hidx : jsIndexOf (v ++ "?" ++ q) '?' = (v.data.length : Int) := by
      unfold jsIndexOf
      rw [hdata, charIdx_append_self_of_not_mem _ hq]
    have hlen : v.data.length ≤ (v ++ "?" ++ q).data.length := by
      rw [hdata]; simp
    have hsub : jsSubstring (v ++ "?" ++ q) 0 (v.data.length : Int) = v := by
      rw [jsSubstring_take _ _ hlen, hdata, List.take_left]
    have hpos : ((v.data.length : Int) > -1) := by omega
    simp only [fixLinksReplace, h1, h2, h3, Bool.or_self, Bool.false_or, Bool.or_false,
      if_false, Bool.false_eq_true, hidx, hsub, if_pos hpos]
  · decide

/-- Witness for C8 at the concrete occurrence `src="b.js?v=2"`. -/
theorem C8_witness :
    fixLinksReplace rwProbe "/x/y.html" "src=\"b.js?v=2\"" "src=\""
        ("b.js" ++ "?" ++ "v=2") "\""
      = "src=\"" ++ rwProbe (pjoin [pdirname "/x/y.html", "b.js"]) ++ "\"" :=
  C8_query_stripping.1 rwProbe "/x/y.html" "src=\"b.js?v=2\"" "src=\"" "b.js" "v=2" "\""
    (by decide) (by decide) (by decide) (by decide)

/-- A concrete collaborator environment: ProjectBuild configuration named
`sphinx`, backend neither ready nor erroring, renderer invocation rejecting,
reads failing. -/
def envNotReady : SphinxEnv :=
  { previewName := "sphinx"
    pythonExec := Except.error { name := "Error", message := "renderer failed", stack := "" }
    esbonioError := false
    esbonioReady := false
    buildDir := "/proj/_build/html"
    fsExists := fun _ => true
    readRes := fun _ => Except.error { name := "Error", message := "ENOENT", stack := "trace" }
    webviewUri := fun s => s
    cwd := "/" }

/-- `envNotReady` with the backend reporting both ready and error. -/
def envBuildError : SphinxEnv :=
  { envNotReady with esbonioError := true, esbonioReady := true }

/-- C2 (amended): in ProjectBuild mode with backend state
`{ready := false, error := false}` the engine returns exactly the wait page,
and its only filesystem access is the conf.py existence check — in
particular no file read, and no access to the generated output, occurs. -/
theorem C2_wait_short_circuit (env : SphinxEnv) (fileName fsPath cfd : String) (fl : Bool)
    (h1 : cfd ≠ "") (h2 : env.previewName ≠ "docutils")
    (herr : env.esbonioError = false) (hready : env.esbonioReady = false) :
    compile env fileName fsPath cfd fl
      = (Except.ok showWait, [FsEvent.existsCheck (pjoin [cfd, "conf.py"])]) := by
  simp [compile, h1, h2, herr, hready]

/-- Counterexample to C2 as stated: even with backend state
`{ready := false, error := false}` the request performs a filesystem
access — the conf.py existence check of line 45 runs before the gate of
lines 54-59, so the event trace is not empty. -/
theorem C2_counterexample_confpy_check :
    (compile envNotReady "index.rst" "/proj/docs/index.rst" "/proj" true).2
        = [FsEvent.existsCheck "/proj/conf.py"]
    ∧ (compile envNotReady "index.rst" "/proj/docs/index.rst" "/proj" true).2 ≠ [] := by
  constructor
  · decide
  · decide

/-- Witness for C2's amended theorem at the concrete environment. -/
theorem C2_witness :
    compile envNotReady "index.rst" "/proj/docs/index.rst" "/proj" true
      = (Except.ok showWait, [FsEvent.existsCheck (pjoin ["/proj", "conf.py"])]) :=
  C2_wait_short_circuit envNotReady "index.rst" "/proj/docs/index.rst" "/proj" true
    (by decide) (by decide) rfl rfl

/-- C5: in ProjectBuild mode the readiness gate yields exactly one of three
outcomes, with error taking priority over readiness: `error = true` gives
the build-error page (whatever `ready` is) with no read of the generated
output; otherwise `ready = false` gives the wait page; otherwise the request
proceeds to output-path resolution and the document load. -/
theorem C5_readiness_gate_priority (env : SphinxEnv) (fileName fsPath cfd : String)
    (fl : Bool) (h1 : cfd ≠ "") (h2 : env.previewName ≠ "docutils") :
    (env.esbonioError = true →
      compile env fileName fsPath cfd fl
        = (Except.ok (showHelp "<p>Esbonio detected build errors.</p>" "Not Available"),
            [FsEvent.existsCheck (pjoin [cfd, "conf.py"])]))
    ∧ (env.esbonioError = false → env.esbonioReady = false →
      compile env fileName fsPath cfd fl
        = (Except.ok showWait, [FsEvent.existsCheck (pjoin [cfd, "conf.py"])]))
    ∧ (env.esbonioError = false → env.esbonioReady = true →
      compile env fileName fsPath cfd fl
        = (Except.ok
              (previewPage env (resolveHtmlPath env.cwd cfd env.buildDir fsPath) cfd fl).1,
            [FsEvent.existsCheck (pjoin [cfd, "conf.py"]),
              FsEvent.read (resolveHtmlPath env.cwd cfd env.buildDir fsPath)])) := by
  refine ⟨fun herr => ?_, fun herr hrdy => ?_, fun herr hrdy => ?_⟩
  · simp [compile, h1, h2, herr]
  · simp [compile, h1, h2, herr, hrdy]
  · cases hr : env.readRes (resolveHtmlPath env.cwd cfd env.buildDir fsPath) with
    | ok d => simp [compile, h1, h2, herr, hrdy, previewPage, hr]
    | error e => simp [compile, h1, h2, herr, hrdy, previewPage, hr]

/-- Witness for C5: with `error = true` and `ready = true` the build-error
page is returned and the generated output is never read. -/
theorem C5_witness :
    compile envBuildError "index.rst" "/proj/docs/index.rst" "/proj" true
      = (Except.ok (showHelp "<p>Esbonio detected build errors.</p>" "Not Available"),
          [FsEvent.existsCheck (pjoin ["/proj", "conf.py"])]) :=
  (C5_readiness_gate_priority envBuildError "index.rst" "/proj/docs/index.rst" "/proj" true
    (by decide) (by decide)).1 rfl

/-- C10: in ProjectBuild mode the returned HTML does not depend on the
`fs.existsSync` collaborator at all — in particular not on whether conf.py
exists: the missing-conf.py branch only resets the external status bar and
reassigns the same directory value. -/
theorem previewPage_ignores_fsExists (env : SphinxEnv) (e : String → Bool)
    (htmlPath input : String) (fl : Bool) :
    previewPage { env with fsExists := e } htmlPath input fl
      = previewPage env htmlPath input fl := rfl

theorem C10_conf_py_independence (env : SphinxEnv) (e₁ e₂ : String → Bool)
    (fileName fsPath cfd : String) (fl : Bool)
    (h1 : cfd ≠ "") (h2 : env.previewName ≠ "docutils") :
    (compile { env with fsExists := e₁ } fileName fsPath cfd fl).1
      = (compile { env with fsExists := e₂ } fileName fsPath cfd fl).1 := by
  simp [compile, h1, h2, previewPage_ignores_fsExists]

/-- Witness for C10: conf.py present versus conf.py absent produce the same
HTML at the concrete environment. -/
theorem C10_witness :
    (compile { envNotReady with fsExists := fun _ => true }
        "index.rst" "/proj/docs/index.rst" "/proj" true).1
      = (compile { envNotReady with fsExists := fun _ => false }
          "index.rst" "/proj/docs/index.rst" "/proj" true).1 :=
  C10_conf_py_independence envNotReady (fun _ => true) (fun _ => false)
    "index.rst" "/proj/docs/index.rst" "/proj" true (by decide) (by decide)

/-- The `PreviewEnv` of a request in SingleFile (docutils) mode whose
renderer invocation rejects. -/
def previewEnvRendererFails : PreviewEnv :=
  { env := envNotReady
    fileName := "/tmp/README.rst"
    fsPath := "/tmp/README.rst"
    statusIsNull := true
    statusConfigIsNull := false
    refreshResult := Except.ok ()
    configNullAfterRefresh := false
    confPyDirectory := "" }

/-- C1 is violated by the code: both `return this.compile(...)` statements
inside `preview`'s `try` block (lines 175 and 179) return the promise
without awaiting it, so when `compile` rejects (here: a SingleFile request
whose renderer invocation rejects) the rejection bypasses the `catch` and
`preview` itself rejects instead of returning the generic compile-error
snippet. -/
theorem C1_preview_rejection_escapes :
    preview previewEnvRendererFails
      = Except.error { name := "Error", message := "renderer failed", stack := "" } := rfl

theorem charIdx_eq_none_of_not_mem {c : Char} {l : List Char} (h : c ∉ l) :
    charIdx c l = none := by
  induction l with
  | nil => rfl
  | cons x l ih =>
    have hx : ¬ x = c := fun hc => h (by simp [hc])
    simp [charIdx, hx, ih (fun hm => h (List.mem_cons_of_mem _ hm))]

/-- C3 (amended): when the source path contains no dot at all,
`lastIndexOf('.')` is `-1` and `substring(0, -1)` is empty, so the
extension-replacement step of the Output Path Resolver (lines 65-66)
produces just `".html"` — the entire name is discarded rather than kept as
a stem. -/
theorem C3_no_dot_extension_step (p : String) (h : '.' ∉ p.data) :
    jsSubstring p 0 (jsLastIndexOf p '.') ++ ".html" = ".html" := by
  have hrev : '.' ∉ p.data.reverse := by simpa using h
  have hidx : jsLastIndexOf p '.' = -1 := by
    unfold jsLastIndexOf
    rw [charIdx_eq_none_of_not_mem hrev]
  rw [hidx]
  have h0 : max (0 : Int) 0 = 0 := by omega
  have h1 : min (0 : Int) (p.data.length : Int) = 0 := by omega
  have h2 : max (-1 : Int) 0 = 0 := by omega
  have hsub : jsSubstring p 0 (-1) = "" := by
    simp [jsSubstring, h0, h1, h2]
  rw [hsub]
  rfl

/-- Witness for C3's amended theorem at the dot-free name `README`. -/
theorem C3_witness :
    jsSubstring "README" 0 (jsLastIndexOf "README" '.') ++ ".html" = ".html" :=
  C3_no_dot_extension_step "README" (by decide)

/-- Counterexample to C3 as stated: a source named `README` (no dot anywhere
in its path) does not resolve to `README.html` in the mirrored output
location; the whole name is dropped and the resolver produces
`/cfg/_build/.html`. -/
theorem C3_counterexample_readme :
    resolveHtmlPath "/" "/cfg" "/cfg/_build/html" "/cfg/docs/README" = "/cfg/_build/.html"
    ∧ resolveHtmlPath "/" "/cfg" "/cfg/_build/html" "/cfg/docs/README"
        ≠ "/cfg/_build/html/docs/README.html" :=
  ⟨by decide, by decide⟩

/-! ### Containment lemmas for the read-failure page -/

theorem seqStarts_append_self : ∀ (s t : List Char), seqStarts s (s ++ t) = true
  | [], _ => rfl
  | a :: as, t => by simp [seqStarts, seqStarts_append_self as t]

theorem seqContains_nil_sub : ∀ (hay : List Char), seqContains hay [] = true
  | [] => rfl
  | _ :: t => by simp [seqContains, seqContains_nil_sub t, seqStarts]

theorem seqContains_here (s t : List Char) : seqContains (s ++ t) s = true := by
  cases s with
  | nil => simpa using seqContains_nil_sub t
  | cons c cs =>
    have h := seqStarts_append_self (c :: cs) t
    simp only [List.cons_append] at h
    simp only [List.cons_append, seqContains, Bool.or_eq_true]
    exact Or.inl h

theorem seqContains_append_left (a : List Char) {hay sub : List Char}
    (h : seqContains hay sub = true) : seqContains (a ++ hay) sub = true := by
  induction a with
  | nil => simpa using h
  | cons x a ih => simp [seqContains, ih]

theorem seqStarts_extend {sub : List Char} :
    ∀ {l : List Char} (m : List Char), seqStarts sub l = true → seqStarts sub (l ++ m) = true := by
  induction sub with
  | nil => intro l m _; rfl
  | cons c cs ih =>
    intro l m h
    cases l with
    | nil => simp [seqStarts] at h
    | cons x xs =>
      simp only [seqStarts, Bool.and_eq_true] at h
      simp only [List.cons_append, seqStarts, Bool.and_eq_true]
      exact ⟨h.1, ih _ h.2⟩

theorem seqContains_extend {a sub : List Char} (b : List Char)
    (h : seqContains a sub = true) : seqContains (a ++ b) sub = true := by
  induction a with
  | nil =>
    cases sub with
    | nil => exact seqContains_nil_sub b
    | cons c cs => simp [seqContains, seqStarts] at h
  | cons x a ih =>
    simp only [seqContains, Bool.or_eq_true] at h
    rcases h with h | h
    · simp only [List.cons_append, seqContains, Bool.or_eq_true]
      exact Or.inl (seqStarts_extend _ h)
    · simp only [List.cons_append, seqContains, Bool.or_eq_true]
      exact Or.inr (ih h)

theorem strContains_append_right (a : String) {b sub : String}
    (h : strContains b sub = true) : strContains (a ++ b) sub = true := by
  unfold strContains at h ⊢
  rw [strData_append]
  exact seqContains_append_left a.data h

theorem strContains_append_left {a : String} (b : String) {sub : String}
    (h : strContains a sub = true) : strContains (a ++ b) sub = true := by
  unfold strContains at h ⊢
  rw [strData_append]
  exact seqContains_extend b.data h

theorem strContains_self (s : String) : strContains s s = true := by
  unfold strContains
  have := seqContains_here s.data []
  simpa using this

/-- C4 (amended): when the read of a resolved output path fails, the
Document Loader returns — never raises, since both callback branches call
`resolve` — the help page, which contains the literal failed path, the two
causes listed by the source (a wrong conf.py selected; a wrong
`esbonio.sphinx.buildDir` value), and the error's name, message and stack
joined by newlines. -/
theorem C4_read_failure_page (env : SphinxEnv) (htmlPath input : String) (fl : Bool)
    (err : JsErr) (h : env.readRes htmlPath = Except.error err) :
    (previewPage env htmlPath input fl).1
        = showHelp (readFailDescription htmlPath)
            (String.intercalate "\n" [err.name, err.message, err.stack])
    ∧ strContains (previewPage env htmlPath input fl).1 htmlPath = true
    ∧ strContains (previewPage env htmlPath input fl).1
        "<li>A wrong \"conf.py\" file is selected.</li>" = true
    ∧ strContains (previewPage env htmlPath input fl).1
        "<li>Wrong value is set on \"esbonio.sphinx.buildDir\".</li>" = true
    ∧ strContains (previewPage env htmlPath input fl).1
        (err.name ++ "\n" ++ err.message ++ "\n" ++ err.stack) = true := by
  have hpage : (previewPage env htmlPath input fl).1
      = showHelp (readFailDescription htmlPath)
          (String.intercalate "\n" [err.name, err.message, err.stack]) := by
    simp [previewPage, h]
  have hinter : String.intercalate "\n" [err.name, err.message, err.stack]
      = err.name ++ "\n" ++ err.message ++ "\n" ++ err.stack := rfl
  refine ⟨hpage, ?_, ?_, ?_, ?_⟩
  · rw [hpage]
    unfold showHelp readFailDescription
    apply strContains_append_left
    apply strContains_append_left
    apply strContains_append_left
    apply strContains_append_right
    apply strContains_append_left
    apply strContains_append_right
    exact strContains_self htmlPath
  · rw [hpage]
    unfold showHelp readFailDescription
    apply strContains_append_left
    apply strContains_append_left
    apply strContains_append_left
    apply strContains_append_right
    apply strContains_append_right
    decide
  · rw [hpage]
    unfold showHelp readFailDescription
    apply strContains_append_left
    apply strContains_append_left
    apply strContains_append_left
    apply strContains_append_right
    apply strContains_append_right
    decide
  · rw [hpage, hinter]
    unfold showHelp
    apply strContains_append_left
    apply strContains_append_right
    exact strContains_self _

set_option maxRecDepth 20000 in
/-- Counterexample to C4 as stated: the claim speaks of "the three causes",
but the causes list of the read-failure page holds exactly two `<li>` items,
not three. -/
theorem C4_counterexample_two_causes :
    countSeq "<li>".data ((previewPage envNotReady "/missing.html" "/proj" false).1).data = 2
    ∧ countSeq "<li>".data
        ((previewPage envNotReady "/missing.html" "/proj" false).1).data ≠ 3 :=
  ⟨by decide, by decide⟩

/-- Witness for C4's amended theorem at the concrete failing read. -/
theorem C4_witness :
    (previewPage envNotReady "/proj/_build/html/docs/index.html" "/proj" true).1
        = showHelp (readFailDescription "/proj/_build/html/docs/index.html")
            (String.intercalate "\n" ["Error", "ENOENT", "trace"])
    ∧ strContains (previewPage envNotReady "/proj/_build/html/docs/index.html" "/proj" true).1
        "/proj/_build/html/docs/index.html" = true
    ∧ strContains (previewPage envNotReady "/proj/_build/html/docs/index.html" "/proj" true).1
        "<li>A wrong \"conf.py\" file is selected.</li>" = true
    ∧ strContains (previewPage envNotReady "/proj/_build/html/docs/index.html" "/proj" true).1
        "<li>Wrong value is set on \"esbonio.sphinx.buildDir\".</li>" = true
    ∧ strContains (previewPage envNotReady "/proj/_build/html/docs/index.html" "/proj" true).1
        ("Error" ++ "\n" ++ "ENOENT" ++ "\n" ++ "trace") = true :=
  C4_read_failure_page envNotReady "/proj/_build/html/docs/index.html" "/proj" true
    { name := "Error", message := "ENOENT", stack := "trace" } rfl

/-! ### Lemmas about the path model, for the output-path layout claim -/

theorem strEq_of_data {a b : String} (h : a.data = b.data) : a = b := by
  cases a; cases b; exact congrArg String.mk h

theorem splitSeg_ne_nil (sep : Char) : ∀ (l : List Char), splitSeg sep l ≠ []
  | [] => by simp [splitSeg]
  | c :: cs => by
    unfold splitSeg
    cases h : splitSeg sep cs with
    | nil => simp
    | cons x t =>
      by_cases hc : c = sep <;> simp [hc]

theorem splitSeg_cons (sep c : Char) (cs : List Char) :
    splitSeg sep (c :: cs) =
      match splitSeg sep cs with
      | [] => [[]]
      | h :: t => if c = sep then [] :: h :: t else (c :: h) :: t := rfl

theorem splitSeg_cons_sep (sep : Char) (l : List Char) :
    splitSeg sep (sep :: l) = [] :: splitSeg sep l := by
  rw [splitSeg_cons]
  cases h : splitSeg sep l with
  | nil => exact absurd h (splitSeg_ne_nil sep l)
  | cons x t => simp

theorem splitSeg_append (sep : Char) :
    ∀ (a b : List Char), splitSeg sep (a ++ sep :: b) = splitSeg sep a ++ splitSeg sep b
  | [], b => by
    rw [List.nil_append, splitSeg_cons_sep]
    rfl
  | c :: a, b => by
    rw [List.cons_append, splitSeg_cons, splitSeg_cons, splitSeg_append sep a b]
    cases h : splitSeg sep a with
    | nil => exact absurd h (splitSeg_ne_nil sep a)
    | cons x t =>
      by_cases hc : c = sep <;> simp [hc]

theorem splitSeg_no_sep (sep : Char) :
    ∀ {l : List Char}, sep ∉ l → splitSeg sep l = [l]
  | [], _ => rfl
  | c :: cs, h => by
    have hc : ¬ c = sep := fun hc => h (by simp [hc])
    have ih := splitSeg_no_sep sep (l := cs) (fun hm => h (List.mem_cons_of_mem _ hm))
    rw [splitSeg_cons, ih]
    simp [hc]

theorem foldl_normStep_push (a : Bool) :
    ∀ {segs : List (List Char)} (_ : ∀ s ∈ segs, s ≠ ['.'] ∧ s ≠ ['.', '.'])
      (acc : List (List Char)), segs.foldl (normStep a) acc = segs.reverse ++ acc
  | [], _, acc => by simp
  | s :: segs, h, acc => by
    have hs := h s (by simp)
    have hstep : normStep a acc s = s :: acc := by
      unfold normStep
      rw [if_neg hs.1, if_neg hs.2]
    rw [List.foldl_cons, hstep,
      foldl_normStep_push a (fun x hx => h x (List.mem_cons_of_mem _ hx)) (s :: acc)]
    simp

theorem normSegs_clean (a : Bool) {segs : List (List Char)}
    (h : ∀ s ∈ segs, s ≠ ['.'] ∧ s ≠ ['.', '.']) : normSegs a segs = segs := by
  unfold normSegs
  rw [foldl_normStep_push a h []]
  simp

theorem commonLen_self_append : ∀ (l m : List (List Char)), commonLen l (l ++ m) = l.length
  | [], m => by cases m <;> rfl
  | x :: l, m => by
    show commonLen (x :: l) (x :: (l ++ m)) = l.length + 1
    unfold commonLen
    rw [if_pos rfl, commonLen_self_append l m]

theorem joinSegs_append (sep : Char) :
    ∀ (xs ys : List (List Char)), xs ≠ [] → ys ≠ [] →
      joinSegs sep (xs ++ ys) = joinSegs sep xs ++ sep :: joinSegs sep ys
  | [], _, hx, _ => absurd rfl hx
  | [x], ys, _, hy => by
    cases ys with
    | nil => exact absurd rfl hy
    | cons y ys =>
      show joinSegs sep (x :: y :: ys) = x ++ sep :: joinSegs sep (y :: ys)
      rfl
  | x :: t :: rest, ys, _, hy => by
    have ih := joinSegs_append sep (t :: rest) ys (by simp) hy
    have hl : joinSegs sep ((x :: t :: rest) ++ ys)
        = x ++ sep :: joinSegs sep ((t :: rest) ++ ys) := rfl
    have hr : joinSegs sep (x :: t :: rest) = x ++ sep :: joinSegs sep (t :: rest) := rfl
    rw [hl, hr, ih]
    simp

theorem splitSeg_joinSegs (sep : Char) :
    ∀ {C : List (List Char)}, (∀ s ∈ C, sep ∉ s) → C ≠ [] →
      splitSeg sep (joinSegs sep C) = C
  | [], _, hC => absurd rfl hC
  | [s], h, _ => by
    show splitSeg sep s = [s]
    exact splitSeg_no_sep sep (h s (by simp))
  | s :: t :: rest, h, _ => by
    show splitSeg sep (s ++ sep :: joinSegs sep (t :: rest)) = s :: t :: rest
    rw [splitSeg_append, splitSeg_no_sep sep (h s (by simp)),
      splitSeg_joinSegs sep (fun x hx => h x (List.mem_cons_of_mem _ hx)) (by simp)]
    rfl

/-- An absolute path assembled from components: `mkAbsPath ["a","b"] = "/a/b"`. -/
def mkAbsPath (comps : List String) : String :=
  String.mk ('/' :: joinSegs '/' (comps.map String.data))

/-- A clean path component: non-empty, not a navigation segment, and free of
the separator. -/
def cleanComp (s : String) : Prop :=
  s ≠ "" ∧ s ≠ "." ∧ s ≠ ".." ∧ '/' ∉ s.data

instance (s : String) : Decidable (cleanComp s) := by
  unfold cleanComp
  infer_instance

theorem segs_of_clean {comps : List String} (h : ∀ c ∈ comps, cleanComp c) :
    ∀ s ∈ comps.map String.data, s ≠ [] ∧ '/' ∉ s ∧ s ≠ ['.'] ∧ s ≠ ['.', '.'] := by
  intro s hs
  rcases List.mem_map.mp hs with ⟨c, hc, rfl⟩
  have hcl := h c hc
  refine ⟨?_, hcl.2.2.2, ?_, ?_⟩
  · exact fun hnil => hcl.1 (strEq_of_data (hnil.trans rfl))
  · exact fun hdot => hcl.2.1 (strEq_of_data (hdot.trans rfl))
  · exact fun hdd => hcl.2.2.1 (strEq_of_data (hdd.trans rfl))

theorem filterSegs_mkAbs_append {comps : List String} (hne : comps ≠ [])
    (h : ∀ c ∈ comps, cleanComp c) {D : List (List Char)}
    (hDf : ∀ s ∈ D, s ≠ [] ∧ '/' ∉ s ∧ s ≠ ['.'] ∧ s ≠ ['.', '.']) (hD : D ≠ []) :
    (splitSeg '/' ((mkAbsPath comps).data ++ '/' :: joinSegs '/' D)).filter (fun l => l ≠ [])
      = comps.map String.data ++ D := by
  have hfacts := segs_of_clean h
  have hCne : comps.map String.data ≠ [] := by simpa using hne
  have hdata : (mkAbsPath comps).data = '/' :: joinSegs '/' (comps.map String.data) := rfl
  rw [hdata, List.cons_append, splitSeg_cons_sep, splitSeg_append,
    splitSeg_joinSegs '/' (fun s hs => (hfacts s hs).2.1) hCne,
    splitSeg_joinSegs '/' (fun s hs => (hDf s hs).2.1) hD]
  rw [List.filter_cons]
  simp only [decide_not]
  rw [if_neg (by simp)]
  exact List.filter_eq_self.mpr (fun s hs => by
    rcases List.mem_append.mp hs with hs | hs
    · simpa using (hfacts s hs).1
    · simpa using (hDf s hs).1)

theorem presolveSegs_absolute (cwd p : String) (h : p.data.head? = some '/') :
    presolveSegs cwd p
      = normSegs false ((splitSeg '/' p.data).filter (fun l => l ≠ [])) := by
  unfold presolveSegs
  rw [if_pos h]

theorem presolveSegs_mkAbs (cwd : String) {comps : List String} (hne : comps ≠ [])
    (h : ∀ c ∈ comps, cleanComp c) :
    presolveSegs cwd (mkAbsPath comps) = comps.map String.data := by
  have hfacts := segs_of_clean h
  have hCne : comps.map String.data ≠ [] := by simpa using hne
  have hhead : (mkAbsPath comps).data.head? = some '/' := rfl
  rw [presolveSegs_absolute cwd _ hhead]
  have hdata : (mkAbsPath comps).data = '/' :: joinSegs '/' (comps.map String.data) := rfl
  rw [hdata, splitSeg_cons_sep,
    splitSeg_joinSegs '/' (fun s hs => (hfacts s hs).2.1) hCne]
  rw [List.filter_cons]
  simp only [decide_not]
  rw [if_neg (by simp)]
  rw [List.filter_eq_self.mpr (fun s hs => by simpa using (hfacts s hs).1)]
  exact normSegs_clean false (fun s hs => (hfacts s hs).2.2)

theorem presolveSegs_mkAbs_append (cwd : String) {comps : List String} (hne : comps ≠ [])
    (h : ∀ c ∈ comps, cleanComp c) {D : List (List Char)}
    (hDf : ∀ s ∈ D, s ≠ [] ∧ '/' ∉ s ∧ s ≠ ['.'] ∧ s ≠ ['.', '.']) (hD : D ≠ []) :
    presolveSegs cwd (String.mk ((mkAbsPath comps).data ++ '/' :: joinSegs '/' D))
      = comps.map String.data ++ D := by
  have hfacts := segs_of_clean h
  have hhead : (String.mk ((mkAbsPath comps).data ++ '/' :: joinSegs '/' D)).data.head?
      = some '/' := by
    have hdata : (mkAbsPath comps).data = '/' :: joinSegs '/' (comps.map String.data) := rfl
    show ((mkAbsPath comps).data ++ '/' :: joinSegs '/' D).head? = some '/'
    rw [hdata]
    rfl
  rw [presolveSegs_absolute cwd _ hhead]
  have hdata2 : (String.mk ((mkAbsPath comps).data ++ '/' :: joinSegs '/' D)).data
      = (mkAbsPath comps).data ++ '/' :: joinSegs '/' D := rfl
  rw [hdata2, filterSegs_mkAbs_append hne h hDf hD]
  exact normSegs_clean false (fun s hs => by
    rcases List.mem_append.mp hs with hs | hs
    · exact (hfacts s hs).2.2
    · exact (hDf s hs).2.2)

theorem prelative_mkAbs_down (cwd : String) {comps : List String} (hne : comps ≠ [])
    (h : ∀ c ∈ comps, cleanComp c) {D : List (List Char)}
    (hDf : ∀ s ∈ D, s ≠ [] ∧ '/' ∉ s ∧ s ≠ ['.'] ∧ s ≠ ['.', '.']) (hD : D ≠ []) :
    prelative cwd (mkAbsPath comps)
        (String.mk ((mkAbsPath comps).data ++ '/' :: joinSegs '/' D))
      = String.mk (joinSegs '/' D) := by
  have hunfold : ∀ (fromP toP : String), prelative cwd fromP toP =
      if presolveSegs cwd fromP = presolveSegs cwd toP then ""
      else String.mk (joinSegs '/'
        (List.replicate ((presolveSegs cwd fromP).length
            - commonLen (presolveSegs cwd fromP) (presolveSegs cwd toP)) ['.', '.']
          ++ (presolveSegs cwd toP).drop
              (commonLen (presolveSegs cwd fromP) (presolveSegs cwd toP)))) :=
    fun _ _ => rfl
  rw [hunfold, presolveSegs_mkAbs cwd hne h, presolveSegs_mkAbs_append cwd hne h hDf hD]
  have hneq : ¬ (comps.map String.data = comps.map String.data ++ D) := by
    intro heq
    have hlen := congrArg List.length heq
    rw [List.length_append] at hlen
    have : D.length = 0 := by omega
    exact hD (List.length_eq_zero.mp this)
  rw [if_neg hneq, commonLen_self_append, Nat.sub_self, List.replicate_zero,
    List.nil_append, List.drop_left]

theorem charIdx_append_left {c : Char} :
    ∀ {l₁ : List Char} {i : Nat} (l₂ : List Char), charIdx c l₁ = some i →
      charIdx c (l₁ ++ l₂) = some i := by
  intro l₁
  induction l₁ with
  | nil => intro i l₂ h; simp [charIdx] at h
  | cons x xs ih =>
    intro i l₂ h
    simp only [charIdx] at h
    simp only [List.cons_append, charIdx]
    by_cases hx : x = c
    · rw [if_pos hx] at h ⊢
      exact h
    · rw [if_neg hx] at h ⊢
      cases hj : charIdx c xs with
      | none => rw [hj] at h; simp at h
      | some j =>
        rw [hj] at h
        simp only [List.append_eq]
        rw [ih l₂ hj]
        simpa using h

theorem extStep_mkAbs (comps : List String) :
    jsSubstring (mkAbsPath comps ++ "/docs/index.rst") 0
        (jsLastIndexOf (mkAbsPath comps ++ "/docs/index.rst") '.') ++ ".html"
      = mkAbsPath comps ++ "/docs/index.html" := by
  have hwdata : (mkAbsPath comps ++ "/docs/index.rst").data
      = (mkAbsPath comps).data ++ "/docs/index.rst".data := strData_append _ _
  have hrev : (mkAbsPath comps ++ "/docs/index.rst").data.reverse
      = "/docs/index.rst".data.reverse ++ (mkAbsPath comps).data.reverse := by
    rw [hwdata, List.reverse_append]
  have hci : charIdx '.' "/docs/index.rst".data.reverse = some 3 := by decide
  have hci2 : charIdx '.' (mkAbsPath comps ++ "/docs/index.rst").data.reverse = some 3 := by
    rw [hrev]
    exact charIdx_append_left _ hci
  have hlen15 : (mkAbsPath comps ++ "/docs/index.rst").data.length
      = (mkAbsPath comps).data.length + 15 := by
    rw [hwdata, List.length_append]
    rfl
  have hlast : jsLastIndexOf (mkAbsPath comps ++ "/docs/index.rst") '.'
      = (((mkAbsPath comps ++ "/docs/index.rst").data.length - 4 : Nat) : Int) := by
    unfold jsLastIndexOf
    rw [hci2]
    show ((mkAbsPath comps ++ "/docs/index.rst").data.length : Int) - 1 - ((3 : Nat) : Int) = _
    omega
  rw [hlast, jsSubstring_take _ _ (by omega)]
  apply strEq_of_data
  have htake : (mkAbsPath comps ++ "/docs/index.rst").data.take
        ((mkAbsPath comps ++ "/docs/index.rst").data.length - 4)
      = (mkAbsPath comps).data ++ "/docs/index".data := by
    have h11 : (mkAbsPath comps ++ "/docs/index.rst").data.length - 4
        = (mkAbsPath comps).data.length + 11 := by omega
    rw [h11, hwdata, List.take_append]
    rfl
  show (String.mk ((mkAbsPath comps ++ "/docs/index.rst").data.take
        ((mkAbsPath comps ++ "/docs/index.rst").data.length - 4))).data
      ++ ".html".data = (mkAbsPath comps).data ++ "/docs/index.html".data
  rw [show (String.mk ((mkAbsPath comps ++ "/docs/index.rst").data.take
        ((mkAbsPath comps ++ "/docs/index.rst").data.length - 4))).data
      = (mkAbsPath comps).data ++ "/docs/index".data from htake]
  rw [List.append_assoc]
  rfl

theorem joinSegs_ne_nil {sep : Char} {C : List (List Char)} (hC : C ≠ [])
    (h : ∀ s ∈ C, s ≠ []) : joinSegs sep C ≠ [] := by
  cases C with
  | nil => exact absurd rfl hC
  | cons c t =>
    cases t with
    | nil => exact h c (by simp)
    | cons u r =>
      show c ++ sep :: joinSegs sep (u :: r) ≠ []
      simp

theorem dropWhile_ne_slash (m : List Char) :
    ∀ {l : List Char}, (∀ x ∈ l, x ≠ '/') →
      (l ++ '/' :: m).dropWhile (fun c => c ≠ '/') = '/' :: m := by
  intro l
  induction l with
  | nil =>
    intro _
    rw [List.nil_append, List.dropWhile_cons]
    simp
  | cons x xs ih =>
    intro h
    have hx : x ≠ '/' := h x (by simp)
    rw [List.cons_append, List.dropWhile_cons, if_pos (by simpa using hx)]
    exact ih (fun y hy => h y (List.mem_cons_of_mem _ hy))

theorem pdirname_mk_eq (X : List Char) (h : ¬ (X = [])) :
    pdirname (String.mk X) =
      (match (X.reverse.dropWhile (fun c => c = '/')).dropWhile (fun c => c ≠ '/') with
      | [] => if X.head? = some '/' then "/" else "."
      | _ :: rest =>
        if rest = [] then (if X.head? = some '/' then "/" else ".")
        else if rest.length = 1 ∧ X.head? = some '/' then "//"
        else String.mk rest.reverse) := by
  unfold pdirname
  rw [if_neg (by simpa using h)]

theorem pdirname_append {a b : List Char} (hb : b ≠ []) (hbs : ∀ c ∈ b, c ≠ '/')
    (hlen : 2 ≤ a.length) : pdirname (String.mk (a ++ '/' :: b)) = String.mk a := by
  rw [pdirname_mk_eq _ (by simp)]
  have hrevb : b.reverse ≠ [] := by simpa using hb
  obtain ⟨y, ys, hyy⟩ := List.exists_cons_of_ne_nil hrevb
  have hrev : (a ++ '/' :: b).reverse = b.reverse ++ '/' :: a.reverse := by
    rw [List.reverse_append, List.reverse_cons, List.append_assoc]
    rfl
  have hr1 : (a ++ '/' :: b).reverse.dropWhile (fun c => c = '/')
      = b.reverse ++ '/' :: a.reverse := by
    rw [hrev, hyy, List.cons_append, List.dropWhile_cons,
      if_neg (by simpa using hbs y (List.mem_reverse.mp (hyy ▸ List.mem_cons_self y ys)))]
  have hr2 : (b.reverse ++ '/' :: a.reverse).dropWhile (fun c => c ≠ '/')
      = '/' :: a.reverse :=
    dropWhile_ne_slash _ (fun x hx => hbs x (List.mem_reverse.mp hx))
  rw [hr1, hr2]
  show (if a.reverse = [] then (if (a ++ '/' :: b).head? = some '/' then "/" else ".")
    else if a.reverse.length = 1 ∧ (a ++ '/' :: b).head? = some '/' then "//"
    else String.mk a.reverse.reverse) = String.mk a
  have ha : a ≠ [] := by
    intro hnil
    rw [hnil] at hlen
    simp at hlen
  rw [if_neg (by simpa using ha), if_neg (by
    intro hc
    rw [List.length_reverse] at hc
    omega), List.reverse_reverse]

theorem pbasename_mkAbs_append {comps : List String} (hne : comps ≠ [])
    (h : ∀ c ∈ comps, cleanComp c) {D : List (List Char)}
    (hDf : ∀ s ∈ D, s ≠ [] ∧ '/' ∉ s ∧ s ≠ ['.'] ∧ s ≠ ['.', '.']) (hD : D ≠ []) :
    pbasename (String.mk ((mkAbsPath comps).data ++ '/' :: joinSegs '/' D))
      = (match D.getLast? with | some s => String.mk s | none => "") := by
  unfold pbasename
  have hdata : (String.mk ((mkAbsPath comps).data ++ '/' :: joinSegs '/' D)).data
      = (mkAbsPath comps).data ++ '/' :: joinSegs '/' D := rfl
  rw [hdata, filterSegs_mkAbs_append hne h hDf hD,
    List.getLast?_append_of_ne_nil _ hD]

theorem pnormalize_mk (X : List Char) (hne : ¬ (X = [])) (hhead : X.head? = some '/')
    (hlast : ¬ (X.getLast? = some '/'))
    (hbody : joinSegs '/' (normSegs false ((splitSeg '/' X).filter (fun l => l ≠ []))) ≠ []) :
    pnormalize (String.mk X)
      = String.mk ('/' :: joinSegs '/'
          (normSegs false ((splitSeg '/' X).filter (fun l => l ≠ [])))) := by
  unfold pnormalize
  rw [if_neg (by simpa using hne), if_pos (by simpa using hhead)]
  show (if joinSegs '/' (normSegs false ((splitSeg '/' X).filter (fun l => l ≠ []))) = []
      then "/"
      else String.mk ('/' :: joinSegs '/'
          (normSegs false ((splitSeg '/' X).filter (fun l => l ≠ [])))
        ++ (if X.getLast? = some '/' then ['/'] else []))) = _
  rw [if_neg hbody, if_neg hlast, List.append_nil]

theorem pjoin_mkAbs_layout {comps : List String} (hne : comps ≠ [])
    (h : ∀ c ∈ comps, cleanComp c) :
    pjoin [mkAbsPath comps, "_build/html", "docs", "index.html"]
      = mkAbsPath comps ++ "/_build/html/docs/index.html" := by
  have hfacts := segs_of_clean h
  have hCne : comps.map String.data ≠ [] := by simpa using hne
  have hcfgne : ¬ (mkAbsPath comps = "") := by
    intro heq
    have hd : (mkAbsPath comps).data = ("" : String).data := by rw [heq]
    simp [mkAbsPath] at hd
  have hfilter : [mkAbsPath comps, "_build/html", "docs", "index.html"].filter
        (fun s => s ≠ "")
      = [mkAbsPath comps, "_build/html", "docs", "index.html"] :=
    List.filter_eq_self.mpr (by
      intro x hx
      simp only [List.mem_cons] at hx
      rcases hx with rfl | rfl | rfl | rfl | hx
      · simpa using hcfgne
      · decide
      · decide
      · decide
      · simp at hx)
  unfold pjoin
  rw [hfilter]
  show pnormalize (String.mk (joinSegs '/'
      ([mkAbsPath comps, "_build/html", "docs", "index.html"].map String.data))) = _
  have hX : joinSegs '/' ([mkAbsPath comps, "_build/html", "docs", "index.html"].map
        String.data)
      = (mkAbsPath comps).data
        ++ '/' :: joinSegs '/' ["_build/html".data, "docs".data, "index.html".data] := rfl
  have hjoin3 : joinSegs '/' ["_build/html".data, "docs".data, "index.html".data]
      = "_build/html/docs/index.html".data := by decide
  have hD4 : ∀ s ∈ (["_build".data, "html".data, "docs".data, "index.html".data] :
      List (List Char)), s ≠ [] ∧ '/' ∉ s ∧ s ≠ ['.'] ∧ s ≠ ['.', '.'] := by decide
  have hKD4 : "_build/html/docs/index.html".data
      = joinSegs '/' ["_build".data, "html".data, "docs".data, "index.html".data] := by decide
  rw [hX, hjoin3, hKD4]
  have hsegs : (splitSeg '/' ((mkAbsPath comps).data ++ '/' :: joinSegs '/'
        ["_build".data, "html".data, "docs".data, "index.html".data])).filter
        (fun l => l ≠ [])
      = comps.map String.data
        ++ ["_build".data, "html".data, "docs".data, "index.html".data] :=
    filterSegs_mkAbs_append hne h hD4 (by simp)
  have hnorm : normSegs false ((splitSeg '/' ((mkAbsPath comps).data ++ '/' :: joinSegs '/'
        ["_build".data, "html".data, "docs".data, "index.html".data])).filter
        (fun l => l ≠ []))
      = comps.map String.data
        ++ ["_build".data, "html".data, "docs".data, "index.html".data] := by
    rw [hsegs]
    exact normSegs_clean false (fun s hs => by
      rcases List.mem_append.mp hs with hs | hs
      · exact (hfacts s hs).2.2
      · have := hD4 s hs
        exact this.2.2)
  have hbodyval : joinSegs '/' (comps.map String.data
        ++ ["_build".data, "html".data, "docs".data, "index.html".data])
      = joinSegs '/' (comps.map String.data)
        ++ '/' :: joinSegs '/' ["_build".data, "html".data, "docs".data, "index.html".data] :=
    joinSegs_append '/' _ _ hCne (by simp)
  rw [pnormalize_mk _
    (by
      intro hnil
      have hd : ((mkAbsPath comps).data ++ '/' :: joinSegs '/'
          ["_build".data, "html".data, "docs".data, "index.html".data]).length = 0 := by
        rw [hnil]; rfl
      simp at hd)
    (by
      rw [show (mkAbsPath comps).data
          = '/' :: joinSegs '/' (comps.map String.data) from rfl, List.cons_append]
      rfl)
    (by
      rw [List.getLast?_append_of_ne_nil _ (by simp)]
      decide)
    (by
      rw [hnorm, hbodyval]
      simp)]
  rw [hnorm, hbodyval]
  apply strEq_of_data
  rw [strData_append]
  rw [show (mkAbsPath comps).data
      = '/' :: joinSegs '/' (comps.map String.data) from rfl, List.cons_append]
  rw [show ("/_build/html/docs/index.html" : String).data
      = '/' :: joinSegs '/' ["_build".data, "html".data, "docs".data, "index.html".data]
      from by decide]

/-- C6: for every project root `configDir = /c₁/…/cₙ` written from clean
components (non-empty, not `.`/`..`, no separator), with
`outputDir = configDir/_build/html` and source `configDir/docs/index.rst`,
the Output Path Resolver yields `configDir/_build/html/docs/index.html`:
the extension is replaced by `.html`, source dir and output dir are each
made relative to `configDir`, and the parts are rejoined as
`configDir / outputRelative / sourceRelative / filename`. -/
theorem C6_output_path_layout (cwd : String) (comps : List String)
    (hne : comps ≠ []) (hclean : ∀ c ∈ comps, cleanComp c) :
    resolveHtmlPath cwd (mkAbsPath comps) (mkAbsPath comps ++ "/_build/html")
        (mkAbsPath comps ++ "/docs/index.rst")
      = mkAbsPath comps ++ "/_build/html/docs/index.html" := by
  have hD1 : ∀ s ∈ (["docs".data] : List (List Char)),
      s ≠ [] ∧ '/' ∉ s ∧ s ≠ ['.'] ∧ s ≠ ['.', '.'] := by decide
  have hD2 : ∀ s ∈ (["_build".data, "html".data] : List (List Char)),
      s ≠ [] ∧ '/' ∉ s ∧ s ≠ ['.'] ∧ s ≠ ['.', '.'] := by decide
  have hD3 : ∀ s ∈ (["docs".data, "index.html".data] : List (List Char)),
      s ≠ [] ∧ '/' ∉ s ∧ s ≠ ['.'] ∧ s ≠ ['.', '.'] := by decide
  have hwhole := extStep_mkAbs comps
  have hdir : pdirname (mkAbsPath comps ++ "/docs/index.html")
      = mkAbsPath comps ++ "/docs" := by
    have harg : mkAbsPath comps ++ "/docs/index.html"
        = String.mk (((mkAbsPath comps).data ++ "/docs".data)
            ++ '/' :: "index.html".data) := by
      apply strEq_of_data
      rw [strData_append, List.append_assoc]
      rfl
    rw [harg, pdirname_append (by decide) (by decide)
      (by rw [List.length_append]; simp)]
    apply strEq_of_data
    rfl
  have hsrel : prelative cwd (mkAbsPath comps) (mkAbsPath comps ++ "/docs") = "docs" := by
    have harg : mkAbsPath comps ++ "/docs"
        = String.mk ((mkAbsPath comps).data ++ '/' :: joinSegs '/' ["docs".data]) := by
      apply strEq_of_data
      rfl
    rw [harg, prelative_mkAbs_down cwd hne hclean hD1 (by simp)]
    rfl
  have horel : prelative cwd (mkAbsPath comps) (mkAbsPath comps ++ "/_build/html")
      = "_build/html" := by
    have harg : mkAbsPath comps ++ "/_build/html"
        = String.mk ((mkAbsPath comps).data
            ++ '/' :: joinSegs '/' ["_build".data, "html".data]) := by
      apply strEq_of_data
      rw [strData_append]
      exact congrArg ((mkAbsPath comps).data ++ ·) (by decide)
    rw [harg, prelative_mkAbs_down cwd hne hclean hD2 (by simp)]
    decide
  have hbase : pbasename (mkAbsPath comps ++ "/docs/index.html") = "index.html" := by
    have harg : mkAbsPath comps ++ "/docs/index.html"
        = String.mk ((mkAbsPath comps).data
            ++ '/' :: joinSegs '/' ["docs".data, "index.html".data]) := by
      apply strEq_of_data
      rw [strData_append]
      exact congrArg ((mkAbsPath comps).data ++ ·) (by decide)
    rw [harg, pbasename_mkAbs_append hne hclean hD3 (by simp)]
    decide
  show pjoin [mkAbsPath comps,
      prelative cwd (mkAbsPath comps) (mkAbsPath comps ++ "/_build/html"),
      prelative cwd (mkAbsPath comps)
        (pdirname (jsSubstring (mkAbsPath comps ++ "/docs/index.rst") 0
          (jsLastIndexOf (mkAbsPath comps ++ "/docs/index.rst") '.') ++ ".html")),
      pbasename (jsSubstring (mkAbsPath comps ++ "/docs/index.rst") 0
        (jsLastIndexOf (mkAbsPath comps ++ "/docs/index.rst") '.') ++ ".html")]
    = mkAbsPath comps ++ "/_build/html/docs/index.html"
  rw [hwhole, hdir, hsrel, horel, hbase]
  exact pjoin_mkAbs_layout hne hclean

/-- Witness for C6 at the concrete project root `/proj`. -/
theorem C6_witness :
    resolveHtmlPath "/" (mkAbsPath ["proj"]) (mkAbsPath ["proj"] ++ "/_build/html")
        (mkAbsPath ["proj"] ++ "/docs/index.rst")
      = mkAbsPath ["proj"] ++ "/_build/html/docs/index.html" :=
  C6_output_path_layout "/" ["proj"] (by decide) (by decide)
